import Mathlib

/-!
Verification of the SVWS-Schuljahr orchestrator (`svws_schuljahr.py`).

The development embeds the repository's core shallowly:

* `DBState` models one `MariaDBConnection` together with the contents of the
  `Schuljahresabschnitte` versioning table (the one table whose step logic the
  claims inspect).  Table cells are `Option Int`: a SQL `Jahr` value is either
  an integer or `NULL`.  Every call made on the handle is recorded in a trace
  of `Ev` events.
* `increment_schuljahresabschnitte_jahr` is the line-by-line embedding of the
  year-rollover step, including its internal exception handler (Python's
  `except Exception` branch, reachable e.g. when a `NULL` year makes
  `jahr + 1` raise a `TypeError`).
* `run_all_increments` is the orchestrator, parametric in the step registry
  exactly as the Python function is parametric in the behaviour of the step
  functions it calls: each step is an opaque `σ → StepRes × σ` acting on the
  in-transaction store, and the orchestrator's own handle calls (connect,
  commit, rollback, disconnect) and step invocations are traced.
  `OSt` separates the persisted store from the pending in-transaction view so
  that commit/rollback have their transactional meaning.
-/

/-- Events observable on the store handle during a run: connection
establishment, a step invocation by the orchestrator, a read query, a
mutating update (`UPDATE … SET Jahr = new WHERE Jahr = old`), commit,
rollback, and disconnect. -/
inductive Ev : Type where
  | connect : Ev
  | stepCall : String → Ev
  | query : Ev
  | update : Int → Int → Ev
  | commit : Ev
  | rollback : Ev
  | disconnect : Ev
deriving DecidableEq

/-- State of a `MariaDBConnection` handle over the `Schuljahresabschnitte`
table.  `tbl` holds the `Jahr` cell of each row (NULL-able), `readOk`,
`writeOk`, `commitOk`, `rollbackOk` model whether the corresponding driver
calls succeed, and `trace` records the handle calls made so far. -/
structure DBState : Type where
  connected : Bool
  tbl : List (Option Int)
  readOk : Bool
  writeOk : Bool
  commitOk : Bool
  rollbackOk : Bool
  trace : List Ev
deriving DecidableEq

/-- Descending insertion into a descending-sorted list. -/
def insertDesc (x : Int) : List Int → List Int
  | [] => [x]
  | y :: ys => if y ≤ x then x :: y :: ys else y :: insertDesc x ys

/-- Sort a list of years in descending order (the `ORDER BY Jahr DESC`
of the distinct-years query). -/
def sortDesc (l : List Int) : List Int := l.foldr insertDesc []

/-- Result set of `SELECT DISTINCT Jahr FROM Schuljahresabschnitte ORDER BY
Jahr DESC`: the distinct integer years in descending order, with a `NULL`
row last when the table has a `NULL` year (MariaDB sorts `NULL` last in
descending order). -/
def distinctDesc (tbl : List (Option Int)) : List (Option Int) :=
  (sortDesc (tbl.filterMap id).dedup).map some ++
    (if (Option.none : Option Int) ∈ tbl then [Option.none] else [])

/-- `MariaDBConnection.execute_query` on the distinct-years query: `None`
without a connection or when the driver call fails, otherwise one
single-column row per distinct year. -/
def execute_query_distinct (db : DBState) :
    Option (List (List (Option Int))) × DBState :=
  if db.connected then
    let db1 := { db with trace := db.trace ++ [Ev.query] }
    if db.readOk then ((distinctDesc db.tbl).map (fun v => [v]), db1)
    else (Option.none, db1)
  else (Option.none, db)

/-- `MariaDBConnection.execute_query` on `SELECT COUNT(*) FROM
Schuljahresabschnitte WHERE Jahr = y`: a single row holding the count. -/
def execute_query_count (db : DBState) (y : Int) :
    Option (List (List (Option Int))) × DBState :=
  if db.connected then
    let db1 := { db with trace := db.trace ++ [Ev.query] }
    if db.readOk then (some [[some (db.tbl.count (some y) : Int)]], db1)
    else (Option.none, db1)
  else (Option.none, db)

/-- `MariaDBConnection.execute_update` on `UPDATE Schuljahresabschnitte SET
Jahr = new WHERE Jahr = old`: returns the affected row count, or `None` on
failure. -/
def execute_update_setJahr (db : DBState) (new old : Int) :
    Option Nat × DBState :=
  if db.connected then
    let db1 := { db with trace := db.trace ++ [Ev.update new old] }
    if db.writeOk then
      (some (db.tbl.count (some old)),
       { db1 with tbl := db1.tbl.map (fun c => if c = some old then some new else c) })
    else (Option.none, db1)
  else (Option.none, db)

/-- `MariaDBConnection.commit`: `False` without a connection, otherwise the
driver call is attempted (traced) and reports `commitOk`. -/
def dbCommit (db : DBState) : Bool × DBState :=
  if db.connected then
    (db.commitOk, { db with trace := db.trace ++ [Ev.commit] })
  else (false, db)

/-- `MariaDBConnection.rollback`: `False` without a connection, otherwise the
driver call is attempted (traced) and reports `rollbackOk`. -/
def dbRollback (db : DBState) : Bool × DBState :=
  if db.connected then
    (db.rollbackOk, { db with trace := db.trace ++ [Ev.rollback] })
  else (false, db)

/-- Python truthiness of `check_result and check_result[0][0] > 0` for the
count query's result. -/
def checkPositive : Option (List (List (Option Int))) → Bool
  | some ((some n :: _) :: _) => decide (0 < n)
  | _ => false

/-- The `row[0]` projection of the list comprehension
`[row[0] for row in jahre_result]`; `none` models the `IndexError` raised
by an empty row. -/
def firstCells : List (List (Option Int)) → Option (List (Option Int))
  | [] => some []
  | r :: rs =>
    match r.head? with
    | Option.none => Option.none
    | some c => (firstCells rs).map (fun cs => c :: cs)

/-- Outcome of the per-year loop of `increment_schuljahresabschnitte_jahr`:
ran to completion, returned `False` on a failed update, or raised a Python
exception (`None + 1`). -/
inductive LoopRes : Type where
  | done : LoopRes
  | failedUpd : LoopRes
  | raisedNone : LoopRes
deriving DecidableEq

/-- The `for jahr in jahre_list` loop of `increment_schuljahresabschnitte_jahr`:
for each year, compute `new_jahr = jahr + 1` (raising when the cell is
`NULL`), skip when the count query reports `new_jahr` already present, and
otherwise update all rows carrying `jahr`. -/
def jahrLoop : List (Option Int) → DBState → LoopRes × DBState
  | [], db => (LoopRes.done, db)
  | c :: rest, db =>
    match c with
    | Option.none => (LoopRes.raisedNone, db)
    | some jahr =>
      let new := jahr + 1
      let q := execute_query_count db new
      if checkPositive q.1 then jahrLoop rest q.2
      else
        let u := execute_update_setJahr q.2 new jahr
        match u.1 with
        | some _ => jahrLoop rest u.2
        | Option.none => (LoopRes.failedUpd, u.2)

/-- The `except Exception` handler shared by every step: best-effort
`db.rollback()` followed by `return False`. -/
def stepExcHandler (db : DBState) : Bool × DBState :=
  (false, (dbRollback db).2)

/-- Embedding of `increment_schuljahresabschnitte_jahr(db, do_commit)`:
guard on an active connection, read the distinct years descending, return
`True` when the result is `None` or empty, run the collision-checked
per-year update loop, and commit only when `do_commit` is set; any internal
exception lands in `stepExcHandler`. -/
def increment_schuljahresabschnitte_jahr (db : DBState) (do_commit : Bool) :
    Bool × DBState :=
  if db.connected then
    let q := execute_query_distinct db
    match q.1 with
    | Option.none => (true, q.2)
    | some rows =>
      if rows.isEmpty then (true, q.2)
      else
        match firstCells rows with
        | Option.none => stepExcHandler q.2
        | some jahre_list =>
          match jahrLoop jahre_list q.2 with
          | (LoopRes.done, db2) =>
            if do_commit then dbCommit db2 else (true, db2)
          | (LoopRes.failedUpd, db2) => (false, db2)
          | (LoopRes.raisedNone, db2) => stepExcHandler db2
  else (false, db)

/-- Result of calling a step function from the orchestrator: it returns
`True`, returns `False`, or raises an exception into the orchestrator's
`except` block. -/
inductive StepRes : Type where
  | ok : StepRes
  | fail : StepRes
  | exc : StepRes
deriving DecidableEq

/-- Handle calls a step function can make while it borrows the handle with
`do_commit = False`: read queries, mutating updates, and the best-effort
rollback of its internal exception handler.  Commit is excluded because in
the source every step's `db.commit()` sits under `if do_commit:`. -/
inductive StepEv : Type where
  | query : StepEv
  | update : Int → Int → StepEv
  | rollback : StepEv
deriving DecidableEq

/-- Handle-trace image of a step-issued call. -/
def StepEv.toEv : StepEv → Ev
  | StepEv.query => Ev.query
  | StepEv.update n o => Ev.update n o
  | StepEv.rollback => Ev.rollback

/-- A step operation as `run_all_increments` sees it: `func(db, do_commit=False)`
borrowing the shared handle — it yields a result verdict, the new
in-transaction store, and the handle calls it made, in order. -/
def StepFn (σ : Type) : Type := σ → StepRes × σ × List StepEv

/-- Orchestrator-level handle state over an abstract store `σ`: the
persisted (committed) store, the pending in-transaction view the steps
mutate, the driver's commit/rollback behaviour, and the handle-call
trace. -/
structure OSt (σ : Type) : Type where
  persisted : σ
  pending : σ
  commitOk : Bool
  rollbackOk : Bool
  trace : List Ev

/-- Handle commit at the orchestrator layer: the attempt is traced; on
success the pending view becomes the persisted store. -/
def oCommit {σ : Type} (s : OSt σ) : Bool × OSt σ :=
  (s.commitOk,
   { s with trace := s.trace ++ [Ev.commit],
            persisted := if s.commitOk then s.pending else s.persisted })

/-- Handle rollback at the orchestrator layer: the attempt is traced; on
success the pending view is reset to the persisted store. -/
def oRollback {σ : Type} (s : OSt σ) : Bool × OSt σ :=
  (s.rollbackOk,
   { s with trace := s.trace ++ [Ev.rollback],
            pending := if s.rollbackOk then s.persisted else s.pending })

/-- Handle disconnect at the orchestrator layer (the `finally` block). -/
def oDisconnect {σ : Type} (s : OSt σ) : OSt σ :=
  { s with trace := s.trace ++ [Ev.disconnect] }

/-- The registry lookup loop of `run_all_increments` over an explicit key
list: `allowed.get(key)` per key, failing on the first key absent from the
registry and otherwise accumulating `(key, func)` pairs in caller order. -/
def resolveList {σ : Type} (registry : List (String × StepFn σ)) :
    List String → Option (List (String × StepFn σ))
  | [] => some []
  | k :: ks =>
    match List.lookup k registry with
    | Option.none => Option.none
    | some f => (resolveList registry ks).map (fun r => (k, f) :: r)

/-- Plan resolution of `run_all_increments`: the whole registry when no
explicit list is supplied, otherwise the registry lookups in caller
order. -/
def resolve_steps {σ : Type} (registry : List (String × StepFn σ)) :
    Option (List String) → Option (List (String × StepFn σ))
  | Option.none => some registry
  | some ks => resolveList registry ks

/-- Outcome of the orchestrator's step loop. -/
inductive LoopOut : Type where
  | allOk : LoopOut
  | stepFailed : LoopOut
  | raised : LoopOut
deriving DecidableEq

/-- The `for key, func in exec_steps` loop of `run_all_increments`: each
invocation is traced as a `stepCall` followed by the handle calls the step
itself made, the step acts on the pending store, and the loop stops at the
first step that returns `False` or raises. -/
def runSteps {σ : Type} :
    List (String × StepFn σ) → OSt σ → LoopOut × OSt σ
  | [], s => (LoopOut.allOk, s)
  | (k, f) :: rest, s =>
    let r := f s.pending
    let s1 := { s with
                trace := s.trace ++ [Ev.stepCall k] ++ r.2.2.map StepEv.toEv,
                pending := r.2.1 }
    match r.1 with
    | StepRes.ok => runSteps rest s1
    | StepRes.fail => (LoopOut.stepFailed, s1)
    | StepRes.exc => (LoopOut.raised, s1)

/-- Embedding of `run_all_increments(config_path, dry_run, steps)` over an
abstract store: resolve the plan against the registry (before any handle
activity), load the configuration (`configOk`), connect (`connectOk`,
traced), run the steps, then resolve the transaction — rollback on a step
failure or an exception, rollback on dry-run, otherwise commit with a
rollback attempt when the commit fails — and disconnect in the `finally`
block of every path that entered the `try`. -/
def run_all_increments {σ : Type} (registry : List (String × StepFn σ))
    (dry_run : Bool) (steps : Option (List String))
    (configOk connectOk : Bool) (s : OSt σ) : Bool × OSt σ :=
  match resolve_steps registry steps with
  | Option.none => (false, s)
  | some exec_steps =>
    if configOk then
      let s0 := { s with trace := s.trace ++ [Ev.connect] }
      if connectOk then
        let r := runSteps exec_steps s0
        match r.1 with
        | LoopOut.allOk =>
          if dry_run then (true, oDisconnect (oRollback r.2).2)
          else
            let c := oCommit r.2
            if c.1 then (true, oDisconnect c.2)
            else (false, oDisconnect (oRollback c.2).2)
        | LoopOut.stepFailed => (false, oDisconnect (oRollback r.2).2)
        | LoopOut.raised => (false, oDisconnect (oRollback r.2).2)
      else (false, s0)
    else (false, s)

/-- The step keys of `get_available_steps()`, in registry (canonical)
order. -/
def get_available_steps_keys : List String :=
  ["schuljahresabschnitte", "schueler_dates", "schueler_abschlussdatum",
   "schueler_year_fields", "schueler_abgaenge_dates",
   "schueler_lernabschnittsdaten_dates", "schueler_leistungsdaten_warndatum",
   "schueler_einzelleistungen_datum", "schueler_fehlstunden_datum",
   "schueler_vermerke_datum", "schueler_merkmale_dates",
   "schueler_foerderempfehlungen_dates", "schueler_allgadr_dates",
   "lehrer_dates"]

/-- Step-invocation keys recorded in a trace, in order. -/
def stepCalls : List Ev → List String
  | [] => []
  | Ev.stepCall k :: t => k :: stepCalls t
  | _ :: t => stepCalls t

/-- Number of resolving calls (commit or rollback attempts) in a trace. -/
def resolvingCalls (t : List Ev) : Nat :=
  t.countP fun e =>
    match e with
    | Ev.commit => true
    | Ev.rollback => true
    | _ => false

/-- Spec-level description of the year-rollover loop, stated in the spec's
words for comparison with the embedded step: process the candidate years in
the given order; for each year, skip it when the incremented target is
already present in the current table, and otherwise update every row
holding that year to the incremented value. -/
def collisionSkipFold : List Int → List Int → List Int
  | [], tbl => tbl
  | y :: ys, tbl =>
    if y + 1 ∈ tbl then collisionSkipFold ys tbl
    else collisionSkipFold ys (tbl.map (fun v => if v = y then y + 1 else v))

/-- A step double that always reports success and makes no handle call. -/
def okStep {σ : Type} : StepFn σ := fun p => (StepRes.ok, p, [])

/-- A step double that always reports failure and makes no handle call. -/
def failStep {σ : Type} : StepFn σ := fun p => (StepRes.fail, p, [])

/-- Orchestrator start state over a `Nat` store, with a working driver. -/
def st0 : OSt Nat := ⟨0, 0, true, true, []⟩

/-- Orchestrator start state over a `Nat` store whose commit call fails. -/
def stNoCommit : OSt Nat := ⟨0, 0, false, true, []⟩

/-- Three-step registry whose middle step fails. -/
def regFail : List (String × StepFn Nat) :=
  [("a", okStep), ("b", failStep), ("c", okStep)]

/-- Three-step registry of succeeding steps. -/
def regABC : List (String × StepFn Nat) :=
  [("a", okStep), ("b", okStep), ("c", okStep)]

/-- Registry double carrying the canonical step keys of
`get_available_steps()`. -/
def regAll : List (String × StepFn Nat) :=
  get_available_steps_keys.map (fun k => (k, okStep))

/-- Connected handle over a table holding the years 2023, 2024 and 2025. -/
def db2345 : DBState :=
  ⟨true, [some 2023, some 2024, some 2025], true, true, true, true, []⟩

/-- Connected handle over a table holding a single `NULL` year. -/
def dbNull : DBState := ⟨true, [Option.none], true, true, true, true, []⟩

/-- Connected handle over a table holding the years 2023 and 2024. -/
def dbPair : DBState :=
  ⟨true, [some 2023, some 2024], true, true, true, true, []⟩

/-- Connected handle over an empty table. -/
def dbEmpty : DBState := ⟨true, [], true, true, true, true, []⟩

/-- A state extension that only added read-query and update events on the
handle — the only calls a step body makes outside commit and its exception
handler. -/
def benignExt (db db2 : DBState) : Prop :=
  ∀ e ∈ db2.trace, e ∈ db.trace ∨ e = Ev.query ∨ ∃ n o, e = Ev.update n o

/-! ## Trace bookkeeping lemmas -/

theorem stepCalls_append : ∀ a b : List Ev, stepCalls (a ++ b) = stepCalls a ++ stepCalls b
  | [], _ => rfl
  | e :: t, b => by cases e <;> simp [stepCalls, stepCalls_append t b]

theorem stepCalls_markers : ∀ ks : List String, stepCalls (ks.map Ev.stepCall) = ks
  | [] => rfl
  | k :: ks => by simp [stepCalls, stepCalls_markers ks]

theorem stepCalls_markers_comp {α : Type} (g : α → String) :
    ∀ l : List α, stepCalls (l.map (Ev.stepCall ∘ g)) = l.map g
  | [] => rfl
  | x :: l => by simp [stepCalls, stepCalls_markers_comp g l]

theorem resolvingCalls_append (a b : List Ev) :
    resolvingCalls (a ++ b) = resolvingCalls a + resolvingCalls b := by
  simp [resolvingCalls, List.countP_append]

theorem resolvingCalls_markers : ∀ ks : List String,
    resolvingCalls (ks.map Ev.stepCall) = 0
  | [] => rfl
  | k :: ks => by
    have h := resolvingCalls_markers ks
    simp only [resolvingCalls, List.map_cons, List.countP_cons] at h ⊢
    simp [h]

theorem commit_not_mem_markers (ks : List String) :
    Ev.commit ∉ ks.map Ev.stepCall := by
  intro h
  obtain ⟨k, _, hk⟩ := List.mem_map.mp h
  exact Ev.noConfusion hk

theorem stepCalls_stepEvs : ∀ l : List StepEv, stepCalls (l.map StepEv.toEv) = []
  | [] => rfl
  | e :: l => by cases e <;> simp [StepEv.toEv, stepCalls, stepCalls_stepEvs l]

theorem commit_not_mem_stepEvs (l : List StepEv) :
    Ev.commit ∉ l.map StepEv.toEv := by
  intro h
  obtain ⟨se, _, hse⟩ := List.mem_map.mp h
  cases se <;> exact Ev.noConfusion hse

/-! ## Orchestrator step-loop lemmas -/

theorem runSteps_frame {σ : Type} :
    ∀ (plan : List (String × StepFn σ)) (s : OSt σ),
      ∃ Δ : List Ev,
        (runSteps plan s).2.trace = s.trace ++ Δ ∧
        Ev.commit ∉ Δ ∧
        (runSteps plan s).2.persisted = s.persisted ∧
        (runSteps plan s).2.commitOk = s.commitOk ∧
        (runSteps plan s).2.rollbackOk = s.rollbackOk
  | [], s => ⟨[], by simp [runSteps], by simp, rfl, rfl, rfl⟩
  | (k, f) :: rest, s => by
    have hnc1 : Ev.commit ∉
        ([Ev.stepCall k] ++ (f s.pending).2.2.map StepEv.toEv ++ ([] : List Ev)) := by
      intro hm
      rcases List.mem_append.mp hm with hm | hm
      · rcases List.mem_append.mp hm with hm | hm
        · rw [List.mem_singleton] at hm
          exact Ev.noConfusion hm
        · exact commit_not_mem_stepEvs _ hm
      · exact absurd hm (List.not_mem_nil _)
    cases hr : (f s.pending).1 with
    | ok =>
      have hstep : runSteps ((k, f) :: rest) s
          = runSteps rest
              { s with
                  trace := s.trace ++ [Ev.stepCall k]
                    ++ (f s.pending).2.2.map StepEv.toEv,
                  pending := (f s.pending).2.1 } := by
        simp only [runSteps, hr]
      obtain ⟨Δ, h1, h2, h3, h4, h5⟩ :=
        runSteps_frame rest
          { s with
              trace := s.trace ++ [Ev.stepCall k]
                ++ (f s.pending).2.2.map StepEv.toEv,
              pending := (f s.pending).2.1 }
      refine ⟨[Ev.stepCall k] ++ (f s.pending).2.2.map StepEv.toEv ++ Δ,
        ?_, ?_, ?_, ?_, ?_⟩
      · rw [hstep, h1]
        simp
      · intro hm
        rcases List.mem_append.mp hm with hm | hm
        · rcases List.mem_append.mp hm with hm | hm
          · rw [List.mem_singleton] at hm
            exact Ev.noConfusion hm
          · exact commit_not_mem_stepEvs _ hm
        · exact h2 hm
      · rw [hstep, h3]
      · rw [hstep, h4]
      · rw [hstep, h5]
    | fail =>
      have hstep : runSteps ((k, f) :: rest) s
          = (LoopOut.stepFailed,
             { s with
                 trace := s.trace ++ [Ev.stepCall k]
                   ++ (f s.pending).2.2.map StepEv.toEv,
                 pending := (f s.pending).2.1 }) := by
        simp only [runSteps, hr]
      refine ⟨[Ev.stepCall k] ++ (f s.pending).2.2.map StepEv.toEv ++ ([] : List Ev),
        ?_, hnc1, ?_, ?_, ?_⟩
      · rw [hstep]
        simp
      · rw [hstep]
      · rw [hstep]
      · rw [hstep]
    | exc =>
      have hstep : runSteps ((k, f) :: rest) s
          = (LoopOut.raised,
             { s with
                 trace := s.trace ++ [Ev.stepCall k]
                   ++ (f s.pending).2.2.map StepEv.toEv,
                 pending := (f s.pending).2.1 }) := by
        simp only [runSteps, hr]
      refine ⟨[Ev.stepCall k] ++ (f s.pending).2.2.map StepEv.toEv ++ ([] : List Ev),
        ?_, hnc1, ?_, ?_, ?_⟩
      · rw [hstep]
        simp
      · rw [hstep]
      · rw [hstep]
      · rw [hstep]

theorem runSteps_allOk {σ : Type} :
    ∀ (plan : List (String × StepFn σ)) (s : OSt σ),
      (∀ e ∈ plan, ∀ p, (e.2 p).1 = StepRes.ok) →
      (runSteps plan s).1 = LoopOut.allOk ∧
      ∃ Δ : List Ev,
        (runSteps plan s).2.trace = s.trace ++ Δ ∧
        stepCalls Δ = plan.map Prod.fst ∧
        Ev.commit ∉ Δ ∧
        (runSteps plan s).2.persisted = s.persisted ∧
        (runSteps plan s).2.commitOk = s.commitOk ∧
        (runSteps plan s).2.rollbackOk = s.rollbackOk
  | [], s, _ => ⟨rfl, [], by simp [runSteps], rfl, by simp, rfl, rfl, rfl⟩
  | (k, f) :: rest, s, h => by
    have hf : ∀ p, (f p).1 = StepRes.ok := h (k, f) (List.mem_cons_self _ _)
    have hrest : ∀ e ∈ rest, ∀ p, (e.2 p).1 = StepRes.ok :=
      fun e he => h e (List.mem_cons_of_mem _ he)
    have hstep : runSteps ((k, f) :: rest) s
        = runSteps rest
            { s with
                trace := s.trace ++ [Ev.stepCall k]
                  ++ (f s.pending).2.2.map StepEv.toEv,
                pending := (f s.pending).2.1 } := by
      simp only [runSteps, hf]
    obtain ⟨h1, Δ, h2, hsc, hnc, h3, h4, h5⟩ :=
      runSteps_allOk rest
        { s with
            trace := s.trace ++ [Ev.stepCall k]
              ++ (f s.pending).2.2.map StepEv.toEv,
            pending := (f s.pending).2.1 } hrest
    refine ⟨by rw [hstep, h1],
      [Ev.stepCall k] ++ (f s.pending).2.2.map StepEv.toEv ++ Δ,
      ?_, ?_, ?_, ?_, ?_, ?_⟩
    · rw [hstep, h2]
      simp
    · simp [stepCalls_append, stepCalls, stepCalls_stepEvs, hsc]
    · intro hm
      rcases List.mem_append.mp hm with hm | hm
      · rcases List.mem_append.mp hm with hm | hm
        · rw [List.mem_singleton] at hm
          exact Ev.noConfusion hm
        · exact commit_not_mem_stepEvs _ hm
      · exact hnc hm
    · rw [hstep, h3]
    · rw [hstep, h4]
    · rw [hstep, h5]

theorem runSteps_prefix_fail {σ : Type} (k : String) (f : StepFn σ)
    (post : List (String × StepFn σ)) (hf : ∀ p, (f p).1 = StepRes.fail) :
    ∀ (pre : List (String × StepFn σ)) (s : OSt σ),
      (∀ e ∈ pre, ∀ p, (e.2 p).1 = StepRes.ok) →
      (runSteps (pre ++ (k, f) :: post) s).1 = LoopOut.stepFailed ∧
      ∃ Δ : List Ev,
        (runSteps (pre ++ (k, f) :: post) s).2.trace = s.trace ++ Δ ∧
        stepCalls Δ = pre.map Prod.fst ++ [k] ∧
        Ev.commit ∉ Δ ∧
        (runSteps (pre ++ (k, f) :: post) s).2.persisted = s.persisted ∧
        (runSteps (pre ++ (k, f) :: post) s).2.commitOk = s.commitOk ∧
        (runSteps (pre ++ (k, f) :: post) s).2.rollbackOk = s.rollbackOk
  | [], s, _ => by
    have hstep : runSteps ([] ++ (k, f) :: post) s
        = (LoopOut.stepFailed,
           { s with
               trace := s.trace ++ [Ev.stepCall k]
                 ++ (f s.pending).2.2.map StepEv.toEv,
               pending := (f s.pending).2.1 }) := by
      simp only [List.nil_append, runSteps, hf]
    refine ⟨by rw [hstep],
      [Ev.stepCall k] ++ (f s.pending).2.2.map StepEv.toEv, ?_, ?_, ?_, ?_, ?_, ?_⟩
    · rw [hstep]
      simp
    · simp [stepCalls_append, stepCalls, stepCalls_stepEvs]
    · intro hm
      rcases List.mem_append.mp hm with hm | hm
      · rw [List.mem_singleton] at hm
        exact Ev.noConfusion hm
      · exact commit_not_mem_stepEvs _ hm
    · rw [hstep]
    · rw [hstep]
    · rw [hstep]
  | (k0, f0) :: pre, s, h => by
    have hf0 : ∀ p, (f0 p).1 = StepRes.ok := h (k0, f0) (List.mem_cons_self _ _)
    have hpre : ∀ e ∈ pre, ∀ p, (e.2 p).1 = StepRes.ok :=
      fun e he => h e (List.mem_cons_of_mem _ he)
    have hstep : runSteps (((k0, f0) :: pre) ++ (k, f) :: post) s
        = runSteps (pre ++ (k, f) :: post)
            { s with
                trace := s.trace ++ [Ev.stepCall k0]
                  ++ (f0 s.pending).2.2.map StepEv.toEv,
                pending := (f0 s.pending).2.1 } := by
      simp only [List.cons_append, runSteps, hf0]
      rfl
    obtain ⟨h1, Δ, h2, hsc, hnc, h3, h4, h5⟩ :=
      runSteps_prefix_fail k f post hf pre
        { s with
            trace := s.trace ++ [Ev.stepCall k0]
              ++ (f0 s.pending).2.2.map StepEv.toEv,
            pending := (f0 s.pending).2.1 } hpre
    refine ⟨by rw [hstep, h1],
      [Ev.stepCall k0] ++ (f0 s.pending).2.2.map StepEv.toEv ++ Δ,
      ?_, ?_, ?_, ?_, ?_, ?_⟩
    · rw [hstep, h2]
      simp
    · simp [stepCalls_append, stepCalls, stepCalls_stepEvs, hsc]
    · intro hm
      rcases List.mem_append.mp hm with hm | hm
      · rcases List.mem_append.mp hm with hm | hm
        · rw [List.mem_singleton] at hm
          exact Ev.noConfusion hm
        · exact commit_not_mem_stepEvs _ hm
      · exact hnc hm
    · rw [hstep, h3]
    · rw [hstep, h4]
    · rw [hstep, h5]

theorem runSteps_no_rollback {σ : Type} :
    ∀ (plan : List (String × StepFn σ)) (s : OSt σ),
      (∀ e ∈ plan, ∀ p, StepEv.rollback ∉ (e.2 p).2.2) →
      Ev.rollback ∈ (runSteps plan s).2.trace → Ev.rollback ∈ s.trace
  | [], _, _, hm => hm
  | (k, f) :: rest, s, h, hm => by
    have hfk : StepEv.rollback ∉ (f s.pending).2.2 :=
      h (k, f) (List.mem_cons_self _ _) s.pending
    have hrest : ∀ e ∈ rest, ∀ p, StepEv.rollback ∉ (e.2 p).2.2 :=
      fun e he => h e (List.mem_cons_of_mem _ he)
    have hev : Ev.rollback ∉ (f s.pending).2.2.map StepEv.toEv := by
      intro hx
      obtain ⟨se, hse, hseq⟩ := List.mem_map.mp hx
      cases se
      · exact Ev.noConfusion hseq
      · exact Ev.noConfusion hseq
      · exact hfk hse
    have hs1 : Ev.rollback ∈ (s.trace ++ [Ev.stepCall k]
        ++ (f s.pending).2.2.map StepEv.toEv) → Ev.rollback ∈ s.trace := by
      intro hx
      rcases List.mem_append.mp hx with hx | hx
      · rcases List.mem_append.mp hx with hx | hx
        · exact hx
        · rw [List.mem_singleton] at hx
          exact Ev.noConfusion hx
      · exact absurd hx hev
    cases hr : (f s.pending).1 with
    | ok =>
      rw [show runSteps ((k, f) :: rest) s
          = runSteps rest
              { s with
                  trace := s.trace ++ [Ev.stepCall k]
                    ++ (f s.pending).2.2.map StepEv.toEv,
                  pending := (f s.pending).2.1 } from by simp only [runSteps, hr]]
        at hm
      exact hs1 (runSteps_no_rollback rest _ hrest hm)
    | fail =>
      rw [show runSteps ((k, f) :: rest) s
          = (LoopOut.stepFailed,
             { s with
                 trace := s.trace ++ [Ev.stepCall k]
                   ++ (f s.pending).2.2.map StepEv.toEv,
                 pending := (f s.pending).2.1 }) from by simp only [runSteps, hr]]
        at hm
      exact hs1 hm
    | exc =>
      rw [show runSteps ((k, f) :: rest) s
          = (LoopOut.raised,
             { s with
                 trace := s.trace ++ [Ev.stepCall k]
                   ++ (f s.pending).2.2.map StepEv.toEv,
                 pending := (f s.pending).2.1 }) from by simp only [runSteps, hr]]
        at hm
      exact hs1 hm

theorem run_unfold {σ : Type} (registry : List (String × StepFn σ))
    (dry_run : Bool) (steps : Option (List String)) (s : OSt σ)
    (plan : List (String × StepFn σ))
    (hres : resolve_steps registry steps = some plan) :
    run_all_increments registry dry_run steps true true s =
      (match (runSteps plan { s with trace := s.trace ++ [Ev.connect] }).1 with
       | LoopOut.allOk =>
         if dry_run then
           (true, oDisconnect
             (oRollback (runSteps plan { s with trace := s.trace ++ [Ev.connect] }).2).2)
         else
           if (oCommit (runSteps plan { s with trace := s.trace ++ [Ev.connect] }).2).1 then
             (true, oDisconnect
               (oCommit (runSteps plan { s with trace := s.trace ++ [Ev.connect] }).2).2)
           else
             (false, oDisconnect
               (oRollback
                 (oCommit (runSteps plan { s with trace := s.trace ++ [Ev.connect] }).2).2).2)
       | LoopOut.stepFailed =>
         (false, oDisconnect
           (oRollback (runSteps plan { s with trace := s.trace ++ [Ev.connect] }).2).2)
       | LoopOut.raised =>
         (false, oDisconnect
           (oRollback (runSteps plan { s with trace := s.trace ++ [Ev.connect] }).2).2)) := by
  simp only [run_all_increments, hres, if_true]

theorem resolveList_eq_none {σ : Type} (registry : List (String × StepFn σ)) :
    ∀ keys : List String, ∀ k ∈ keys, List.lookup k registry = Option.none →
      resolveList registry keys = Option.none := by
  intro keys
  induction keys with
  | nil => intro k hk; exact absurd hk (List.not_mem_nil k)
  | cons k0 ks ih =>
    intro k hk hlk
    rcases List.mem_cons.mp hk with h | h
    · subst h
      simp [resolveList, hlk]
    · cases h0 : List.lookup k0 registry with
      | none => simp [resolveList, h0]
      | some f => simp [resolveList, h0, ih k h hlk]

/-! ## Claim C3: unknown step key fails before any handle activity -/

/-- C3: when the requested step-key list contains a key absent from the
registry, `run_all_increments` returns failure with the handle state
completely untouched — no connection, no step invocation, no mutation and
no handle operation of any kind. -/
theorem unknown_step_fails_before_connect {σ : Type}
    (registry : List (String × StepFn σ)) (keys : List String)
    (dry_run configOk connectOk : Bool) (s : OSt σ) (k : String)
    (hk : k ∈ keys) (hua : List.lookup k registry = Option.none) :
    run_all_increments registry dry_run (some keys) configOk connectOk s
      = (false, s) := by
  have hres : resolveList registry keys = Option.none :=
    resolveList_eq_none registry keys k hk hua
  simp [run_all_increments, resolve_steps, hres]

/-- Witness for C3 at a concrete registry and key list. -/
theorem unknown_step_fails_before_connect_witness :
    ("bogus" ∈ ["a", "bogus"] ∧
      List.lookup "bogus" regABC = Option.none) ∧
    run_all_increments regABC false (some ["a", "bogus"]) true true st0
      = (false, st0) :=
  ⟨⟨by decide, rfl⟩,
   unknown_step_fails_before_connect regABC ["a", "bogus"] false true true st0
     "bogus" (by decide) rfl⟩

/-! ## Claim C1: a failing step short-circuits the plan -/

/-- C1: when the resolved plan is a prefix of succeeding steps followed by
a step that signals failure, the orchestrator issues a rollback on the
handle (and no commit), returns failure, and the steps invoked are exactly
the prefix together with the failing step — no step after the failing one
is ever invoked. -/
theorem step_failure_short_circuits {σ : Type}
    (registry : List (String × StepFn σ)) (dry_run : Bool)
    (steps : Option (List String)) (s : OSt σ)
    (pre post : List (String × StepFn σ)) (k : String) (f : StepFn σ)
    (hres : resolve_steps registry steps = some (pre ++ (k, f) :: post))
    (hpre : ∀ e ∈ pre, ∀ p, (e.2 p).1 = StepRes.ok)
    (hf : ∀ p, (f p).1 = StepRes.fail)
    (htr : s.trace = []) :
    (run_all_increments registry dry_run steps true true s).1 = false ∧
    Ev.rollback ∈ (run_all_increments registry dry_run steps true true s).2.trace ∧
    Ev.commit ∉ (run_all_increments registry dry_run steps true true s).2.trace ∧
    stepCalls (run_all_increments registry dry_run steps true true s).2.trace
      = pre.map Prod.fst ++ [k] := by
  obtain ⟨h1, Δ, h2, hsc, hnc, h3, h4, h5⟩ :=
    runSteps_prefix_fail k f post hf pre
      { s with trace := s.trace ++ [Ev.connect] } hpre
  have htrace :
      (run_all_increments registry dry_run steps true true s).2.trace
        = [Ev.connect] ++ Δ ++ [Ev.rollback] ++ [Ev.disconnect] := by
    rw [run_unfold registry dry_run steps s _ hres]
    simp only [h1, oRollback, oDisconnect]
    rw [h2]
    simp [htr]
  have hfalse : (run_all_increments registry dry_run steps true true s).1 = false := by
    rw [run_unfold registry dry_run steps s _ hres, h1]
  refine ⟨hfalse, ?_, ?_, ?_⟩
  · rw [htrace]
    simp
  · rw [htrace]
    intro hm
    simp only [List.append_assoc, List.mem_append, List.mem_singleton] at hm
    rcases hm with hm | hm | hm | hm
    · exact Ev.noConfusion hm
    · exact hnc hm
    · exact Ev.noConfusion hm
    · exact Ev.noConfusion hm
  · rw [htrace]
    simp [stepCalls_append, stepCalls, hsc]

/-- Witness for C1: in a three-step plan whose second step fails, only the
first two steps run, a rollback and no commit is issued, and the run
reports failure. -/
theorem step_failure_short_circuits_witness :
    st0.trace = [] ∧
    ((run_all_increments regFail false Option.none true true st0).1 = false ∧
     Ev.rollback ∈ (run_all_increments regFail false Option.none true true st0).2.trace ∧
     Ev.commit ∉ (run_all_increments regFail false Option.none true true st0).2.trace ∧
     stepCalls (run_all_increments regFail false Option.none true true st0).2.trace
       = ["a", "b"]) :=
  ⟨rfl,
   step_failure_short_circuits regFail false Option.none st0
     [("a", okStep)] [("c", okStep)] "b" failStep rfl
     (by
       intro e he p
       rw [List.mem_singleton] at he
       subst he
       rfl)
     (fun p => rfl) rfl⟩

/-! ## Claim C2: dry-run rolls back and reports success -/

/-- C2: when every step of the resolved plan succeeds and dry-run is
requested, the orchestrator issues a rollback (and never a commit) on the
handle, still returns success, and the persisted store after the run equals
the persisted store before it. -/
theorem dry_run_rolls_back {σ : Type}
    (registry : List (String × StepFn σ)) (steps : Option (List String))
    (s : OSt σ) (plan : List (String × StepFn σ))
    (hres : resolve_steps registry steps = some plan)
    (hok : ∀ e ∈ plan, ∀ p, (e.2 p).1 = StepRes.ok)
    (htr : s.trace = []) :
    (run_all_increments registry true steps true true s).1 = true ∧
    Ev.rollback ∈ (run_all_increments registry true steps true true s).2.trace ∧
    Ev.commit ∉ (run_all_increments registry true steps true true s).2.trace ∧
    (run_all_increments registry true steps true true s).2.persisted
      = s.persisted := by
  obtain ⟨h1, Δ, h2, hsc, hnc, h3, h4, h5⟩ :=
    runSteps_allOk plan { s with trace := s.trace ++ [Ev.connect] } hok
  have htrace :
      (run_all_increments registry true steps true true s).2.trace
        = [Ev.connect] ++ Δ ++ [Ev.rollback] ++ [Ev.disconnect] := by
    rw [run_unfold registry true steps s _ hres]
    simp only [h1, if_true, oRollback, oDisconnect]
    rw [h2]
    simp [htr]
  have htrue : (run_all_increments registry true steps true true s).1 = true := by
    rw [run_unfold registry true steps s _ hres]
    simp [h1]
  have hpers :
      (run_all_increments registry true steps true true s).2.persisted
        = s.persisted := by
    rw [run_unfold registry true steps s _ hres]
    simp only [h1, if_true, oRollback, oDisconnect]
    rw [h3]
  refine ⟨htrue, ?_, ?_, hpers⟩
  · rw [htrace]
    simp
  · rw [htrace]
    intro hm
    simp only [List.append_assoc, List.mem_append, List.mem_singleton] at hm
    rcases hm with hm | hm | hm | hm
    · exact Ev.noConfusion hm
    · exact hnc hm
    · exact Ev.noConfusion hm
    · exact Ev.noConfusion hm

/-- Witness for C2: a dry-run over three succeeding steps rolls back,
commits nothing, reports success, and leaves the persisted store at its
initial value. -/
theorem dry_run_rolls_back_witness :
    st0.trace = [] ∧
    ((run_all_increments regABC true Option.none true true st0).1 = true ∧
     Ev.rollback ∈ (run_all_increments regABC true Option.none true true st0).2.trace ∧
     Ev.commit ∉ (run_all_increments regABC true Option.none true true st0).2.trace ∧
     (run_all_increments regABC true Option.none true true st0).2.persisted
       = st0.persisted) :=
  ⟨rfl,
   dry_run_rolls_back regABC Option.none st0 regABC rfl
     (by
       intro e he p
       simp only [regABC, List.mem_cons, List.not_mem_nil, or_false] at he
       rcases he with h | h | h <;> subst h <;> rfl)
     rfl⟩

/-! ## Claim C8: commit failure triggers rollback and failure verdict -/

/-- C8: when every step of the resolved plan succeeds, dry-run is not
requested and the final commit call fails, the orchestrator attempts a
rollback after the failed commit and reports the run as failed. -/
theorem commit_failure_reports_failure {σ : Type}
    (registry : List (String × StepFn σ)) (steps : Option (List String))
    (s : OSt σ) (plan : List (String × StepFn σ))
    (hres : resolve_steps registry steps = some plan)
    (hok : ∀ e ∈ plan, ∀ p, (e.2 p).1 = StepRes.ok)
    (hcm : s.commitOk = false) :
    (run_all_increments registry false steps true true s).1 = false ∧
    Ev.rollback ∈ (run_all_increments registry false steps true true s).2.trace := by
  obtain ⟨h1, Δ, h2, hsc, hnc, h3, h4, h5⟩ :=
    runSteps_allOk plan { s with trace := s.trace ++ [Ev.connect] } hok
  have hco : (oCommit (runSteps plan { s with trace := s.trace ++ [Ev.connect] }).2).1
      = false := by
    simp only [oCommit, h4]
    exact hcm
  constructor
  · rw [run_unfold registry false steps s _ hres]
    simp only [h1, hco]
    rfl
  · rw [run_unfold registry false steps s _ hres]
    simp only [h1, hco]
    simp [oCommit, oRollback, oDisconnect]

/-- Witness for C8: three succeeding steps followed by a failing commit
produce a rollback attempt and a failure verdict. -/
theorem commit_failure_reports_failure_witness :
    stNoCommit.commitOk = false ∧
    ((run_all_increments regABC false Option.none true true stNoCommit).1 = false ∧
     Ev.rollback ∈
       (run_all_increments regABC false Option.none true true stNoCommit).2.trace) :=
  ⟨rfl,
   commit_failure_reports_failure regABC Option.none stNoCommit regABC rfl
     (by
       intro e he p
       simp only [regABC, List.mem_cons, List.not_mem_nil, or_false] at he
       rcases he with h | h | h <;> subst h <;> rfl)
     rfl⟩

/-! ## Claim C9: caller-specified order and registry order -/

theorem lookup_mem {σ : Type} :
    ∀ (registry : List (String × StepFn σ)) (k : String) (f : StepFn σ),
      List.lookup k registry = some f → (k, f) ∈ registry
  | [], k, f, h => by simp [List.lookup] at h
  | (k0, f0) :: rest, k, f, h => by
    by_cases hk : k = k0
    · subst hk
      simp only [List.lookup, beq_self_eq_true] at h
      cases h
      exact List.mem_cons_self _ _
    · have hb : (k == k0) = false := by
        simp [hk]
      simp only [List.lookup, hb] at h
      exact List.mem_cons_of_mem _ (lookup_mem rest k f h)

theorem resolveList_valid {σ : Type} (registry : List (String × StepFn σ)) :
    ∀ keys : List String,
      (∀ k ∈ keys, (List.lookup k registry).isSome = true) →
      ∃ plan, resolveList registry keys = some plan ∧
        plan.map Prod.fst = keys ∧
        ∀ e ∈ plan, List.lookup e.1 registry = some e.2
  | [], _ => ⟨[], rfl, rfl, by intro e he; exact absurd he (List.not_mem_nil e)⟩
  | k :: ks, h => by
    have hk := h k (List.mem_cons_self _ _)
    obtain ⟨f, hf⟩ := Option.isSome_iff_exists.mp hk
    obtain ⟨plan, h1, h2, h3⟩ :=
      resolveList_valid registry ks (fun x hx => h x (List.mem_cons_of_mem _ hx))
    refine ⟨(k, f) :: plan, ?_, ?_, ?_⟩
    · simp [resolveList, hf, h1]
    · simp [h2]
    · intro e he
      rcases List.mem_cons.mp he with rfl | he2
      · exact hf
      · exact h3 e he2

theorem run_stepCalls {σ : Type}
    (registry : List (String × StepFn σ)) (dry_run : Bool)
    (steps : Option (List String)) (s : OSt σ)
    (plan : List (String × StepFn σ))
    (hres : resolve_steps registry steps = some plan)
    (hok : ∀ e ∈ plan, ∀ p, (e.2 p).1 = StepRes.ok)
    (htr : s.trace = []) :
    stepCalls (run_all_increments registry dry_run steps true true s).2.trace
      = plan.map Prod.fst := by
  obtain ⟨h1, Δ, h2, hsc, hnc, h3, h4, h5⟩ :=
    runSteps_allOk plan { s with trace := s.trace ++ [Ev.connect] } hok
  rw [run_unfold registry dry_run steps s _ hres]
  simp only [h1]
  split_ifs <;>
    · simp only [oCommit, oRollback, oDisconnect]
      rw [h2]
      simp [htr, stepCalls_append, stepCalls, hsc]

/-- C9: whenever every step of the registry reports success, an explicitly
supplied list of valid step keys is executed in exactly the caller-specified
order, and a run without an explicit list executes the registry's steps in
the registry's canonical order. -/
theorem plan_order_preserved {σ : Type}
    (registry : List (String × StepFn σ)) (dry_run : Bool)
    (keys : List String) (s : OSt σ)
    (hok : ∀ e ∈ registry, ∀ p, (e.2 p).1 = StepRes.ok)
    (hval : ∀ k ∈ keys, (List.lookup k registry).isSome = true)
    (htr : s.trace = []) :
    stepCalls (run_all_increments registry dry_run (some keys) true true s).2.trace
      = keys ∧
    stepCalls (run_all_increments registry dry_run Option.none true true s).2.trace
      = registry.map Prod.fst := by
  constructor
  · obtain ⟨plan, h1, h2, h3⟩ := resolveList_valid registry keys hval
    have hokp : ∀ e ∈ plan, ∀ p, (e.2 p).1 = StepRes.ok := by
      intro e he p
      obtain ⟨a, b⟩ := e
      exact hok (a, b) (lookup_mem registry a b (h3 (a, b) he)) p
    rw [run_stepCalls registry dry_run (some keys) s plan h1 hokp htr]
    exact h2
  · exact run_stepCalls registry dry_run Option.none s registry rfl hok htr

/-- Witness for C9: over a registry carrying the canonical step keys, the
explicit plan picks two keys out of registry order and they run in exactly
that order, while the implicit plan runs all fourteen keys in canonical
order. -/
theorem plan_order_preserved_witness :
    st0.trace = [] ∧
    (stepCalls (run_all_increments regAll false
        (some ["schueler_dates", "schuljahresabschnitte"]) true true st0).2.trace
      = ["schueler_dates", "schuljahresabschnitte"] ∧
     stepCalls (run_all_increments regAll false Option.none true true st0).2.trace
      = regAll.map Prod.fst) :=
  ⟨rfl,
   plan_order_preserved regAll false
     ["schueler_dates", "schuljahresabschnitte"] st0
     (by
       intro e he p
       obtain ⟨k, hk, rfl⟩ := List.mem_map.mp he
       rfl)
     (by
       intro k hk
       rcases List.mem_cons.mp hk with rfl | hk2
       · rfl
       · rcases List.mem_cons.mp hk2 with rfl | hk3
         · rfl
         · exact absurd hk3 (List.not_mem_nil k))
     rfl⟩

/-! ## Claim C4: resolving calls and disconnect on every exit path -/

theorem getLast_disconnect {σ : Type} (s : OSt σ) :
    (oDisconnect s).trace.getLast? = some Ev.disconnect := by
  simp [oDisconnect, List.getLast?_concat]

theorem resolvingCalls_connect : resolvingCalls [Ev.connect] = 0 := rfl

theorem resolvingCalls_commit : resolvingCalls [Ev.commit] = 1 := rfl

theorem resolvingCalls_rollback : resolvingCalls [Ev.rollback] = 1 := rfl

theorem resolvingCalls_disconnect : resolvingCalls [Ev.disconnect] = 0 := rfl

/-- C4 counterexample: a run whose connection is established and whose
final commit fails attempts two resolving calls on the handle (the failed
commit followed by a rollback), refuting the claim that exactly one
resolving call is attempted on every such run. -/
theorem two_resolving_calls_on_commit_failure :
    Ev.connect ∈
      (run_all_increments regABC false Option.none true true stNoCommit).2.trace ∧
    resolvingCalls
      (run_all_increments regABC false Option.none true true stNoCommit).2.trace
      = 2 := by
  decide

/-- C4 amended: for every run in which the connection is successfully
established, the handle is disconnected before returning (the last handle
event is the disconnect) and at least one resolving call (commit or
rollback) is attempted on the handle; when no executed step issues a
rollback of its own (no step body raises into its exception handler),
exactly one resolving call is attempted — except on the commit-failure
path, where the failed commit attempt is followed by exactly one rollback
attempt, for two resolving calls in total.  A step whose body raises adds
its own best-effort rollback attempt on the shared handle to that count,
before the orchestrator's rollback. -/
theorem resolving_calls_and_disconnect {σ : Type}
    (registry : List (String × StepFn σ)) (dry_run : Bool)
    (steps : Option (List String)) (s : OSt σ)
    (plan : List (String × StepFn σ))
    (hres : resolve_steps registry steps = some plan) (htr : s.trace = []) :
    (run_all_increments registry dry_run steps true true s).2.trace.getLast?
      = some Ev.disconnect ∧
    1 ≤ resolvingCalls
      (run_all_increments registry dry_run steps true true s).2.trace ∧
    ((∀ e ∈ plan, ∀ p, StepEv.rollback ∉ (e.2 p).2.2) →
      resolvingCalls (run_all_increments registry dry_run steps true true s).2.trace
        = (if Ev.commit ∈ (run_all_increments registry dry_run steps true true s).2.trace
              ∧ s.commitOk = false then 2 else 1)) := by
  obtain ⟨Δ, h2, hnc, h3, h4, h5⟩ :=
    runSteps_frame plan { s with trace := s.trace ++ [Ev.connect] }
  have hks : (runSteps plan { s with trace := s.trace ++ [Ev.connect] }).2.trace
      = [Ev.connect] ++ Δ := by
    rw [h2]
    simp [htr]
  have hcv : (oCommit
      (runSteps plan { s with trace := s.trace ++ [Ev.connect] }).2).1
      = s.commitOk := by
    simp only [oCommit, h4]
  have hD0 : (∀ e ∈ plan, ∀ p, StepEv.rollback ∉ (e.2 p).2.2) →
      resolvingCalls Δ = 0 := by
    intro hnr
    have hr : Ev.rollback ∉ Δ := by
      intro hmem
      have hmm : Ev.rollback
          ∈ (runSteps plan { s with trace := s.trace ++ [Ev.connect] }).2.trace := by
        rw [hks]
        exact List.mem_append.mpr (Or.inr hmem)
      have h0 := runSteps_no_rollback plan _ hnr hmm
      simp [htr] at h0
    refine List.countP_eq_zero.mpr ?_
    intro e he
    cases e with
    | commit => exact absurd he hnc
    | rollback => exact absurd he hr
    | connect => simp
    | stepCall k => simp
    | query => simp
    | update n o => simp
    | disconnect => simp
  rw [run_unfold registry dry_run steps s _ hres]
  rcases hlo : (runSteps plan { s with trace := s.trace ++ [Ev.connect] }).1
    with _ | _ | _
  · simp only [hlo]
    by_cases hd : dry_run = true
    · rw [if_pos hd]
      dsimp only
      have htrc : (oDisconnect (oRollback
          (runSteps plan { s with trace := s.trace ++ [Ev.connect] }).2).2).trace
          = (([Ev.connect] ++ Δ) ++ [Ev.rollback]) ++ [Ev.disconnect] := by
        simp only [oRollback, oDisconnect]
        rw [hks]
      have hcnt : resolvingCalls (oDisconnect (oRollback
          (runSteps plan { s with trace := s.trace ++ [Ev.connect] }).2).2).trace
          = resolvingCalls Δ + 1 := by
        rw [htrc]
        simp [resolvingCalls, List.countP_append, List.countP_cons]
      have hTc : Ev.commit ∉ (oDisconnect (oRollback
          (runSteps plan { s with trace := s.trace ++ [Ev.connect] }).2).2).trace := by
        rw [htrc]
        intro hm
        simp only [List.append_assoc, List.mem_append, List.mem_singleton] at hm
        rcases hm with hm | hm | hm | hm
        · exact Ev.noConfusion hm
        · exact hnc hm
        · exact Ev.noConfusion hm
        · exact Ev.noConfusion hm
      refine ⟨getLast_disconnect _, ?_, ?_⟩
      · rw [hcnt]
        omega
      · intro hnr
        rw [hcnt, hD0 hnr, if_neg (by rintro ⟨hc, -⟩; exact hTc hc)]
    · rw [if_neg hd, hcv]
      by_cases hcm : s.commitOk = true
      · rw [if_pos hcm]
        dsimp only
        have htrc : (oDisconnect (oCommit
            (runSteps plan { s with trace := s.trace ++ [Ev.connect] }).2).2).trace
            = (([Ev.connect] ++ Δ) ++ [Ev.commit]) ++ [Ev.disconnect] := by
          simp only [oCommit, oDisconnect]
          rw [hks]
        have hcnt : resolvingCalls (oDisconnect (oCommit
            (runSteps plan { s with trace := s.trace ++ [Ev.connect] }).2).2).trace
            = resolvingCalls Δ + 1 := by
          rw [htrc]
          simp [resolvingCalls, List.countP_append, List.countP_cons]
        refine ⟨getLast_disconnect _, ?_, ?_⟩
        · rw [hcnt]
          omega
        · intro hnr
          rw [hcnt, hD0 hnr, if_neg (by
            rintro ⟨-, hf⟩
            rw [hcm] at hf
            exact absurd hf (by decide))]
      · have hcmf : s.commitOk = false := Bool.eq_false_iff.mpr hcm
        rw [if_neg hcm]
        dsimp only
        have htrc : (oDisconnect (oRollback (oCommit
            (runSteps plan { s with trace := s.trace ++ [Ev.connect] }).2).2).2).trace
            = ((([Ev.connect] ++ Δ) ++ [Ev.commit]) ++ [Ev.rollback])
                ++ [Ev.disconnect] := by
          simp only [oCommit, oRollback, oDisconnect]
          rw [hks]
        have hcnt : resolvingCalls (oDisconnect (oRollback (oCommit
            (runSteps plan { s with trace := s.trace ++ [Ev.connect] }).2).2).2).trace
            = resolvingCalls Δ + 2 := by
          rw [htrc]
          simp [resolvingCalls, List.countP_append, List.countP_cons]
        have hTc : Ev.commit ∈ (oDisconnect (oRollback (oCommit
            (runSteps plan { s with trace := s.trace ++ [Ev.connect] }).2).2).2).trace := by
          rw [htrc]
          simp
        refine ⟨getLast_disconnect _, ?_, ?_⟩
        · rw [hcnt]
          omega
        · intro hnr
          rw [hcnt, hD0 hnr, if_pos ⟨hTc, hcmf⟩]
  · simp only [hlo]
    dsimp only
    have htrc : (oDisconnect (oRollback
        (runSteps plan { s with trace := s.trace ++ [Ev.connect] }).2).2).trace
        = (([Ev.connect] ++ Δ) ++ [Ev.rollback]) ++ [Ev.disconnect] := by
      simp only [oRollback, oDisconnect]
      rw [hks]
    have hcnt : resolvingCalls (oDisconnect (oRollback
        (runSteps plan { s with trace := s.trace ++ [Ev.connect] }).2).2).trace
        = resolvingCalls Δ + 1 := by
      rw [htrc]
      simp [resolvingCalls, List.countP_append, List.countP_cons]
    have hTc : Ev.commit ∉ (oDisconnect (oRollback
        (runSteps plan { s with trace := s.trace ++ [Ev.connect] }).2).2).trace := by
      rw [htrc]
      intro hm
      simp only [List.append_assoc, List.mem_append, List.mem_singleton] at hm
      rcases hm with hm | hm | hm | hm
      · exact Ev.noConfusion hm
      · exact hnc hm
      · exact Ev.noConfusion hm
      · exact Ev.noConfusion hm
    refine ⟨getLast_disconnect _, ?_, ?_⟩
    · rw [hcnt]
      omega
    · intro hnr
      rw [hcnt, hD0 hnr, if_neg (by rintro ⟨hc, -⟩; exact hTc hc)]
  · simp only [hlo]
    dsimp only
    have htrc : (oDisconnect (oRollback
        (runSteps plan { s with trace := s.trace ++ [Ev.connect] }).2).2).trace
        = (([Ev.connect] ++ Δ) ++ [Ev.rollback]) ++ [Ev.disconnect] := by
      simp only [oRollback, oDisconnect]
      rw [hks]
    have hcnt : resolvingCalls (oDisconnect (oRollback
        (runSteps plan { s with trace := s.trace ++ [Ev.connect] }).2).2).trace
        = resolvingCalls Δ + 1 := by
      rw [htrc]
      simp [resolvingCalls, List.countP_append, List.countP_cons]
    have hTc : Ev.commit ∉ (oDisconnect (oRollback
        (runSteps plan { s with trace := s.trace ++ [Ev.connect] }).2).2).trace := by
      rw [htrc]
      intro hm
      simp only [List.append_assoc, List.mem_append, List.mem_singleton] at hm
      rcases hm with hm | hm | hm | hm
      · exact Ev.noConfusion hm
      · exact hnc hm
      · exact Ev.noConfusion hm
      · exact Ev.noConfusion hm
    refine ⟨getLast_disconnect _, ?_, ?_⟩
    · rw [hcnt]
      omega
    · intro hnr
      rw [hcnt, hD0 hnr, if_neg (by rintro ⟨hc, -⟩; exact hTc hc)]

/-- Witness for C4 (amended) at a concrete dry run whose steps make no
handle calls of their own: the last handle event is the disconnect and
exactly one resolving call is attempted. -/
theorem resolving_calls_and_disconnect_witness :
    st0.trace = [] ∧
    ((run_all_increments regABC true Option.none true true st0).2.trace.getLast?
      = some Ev.disconnect ∧
     1 ≤ resolvingCalls
       (run_all_increments regABC true Option.none true true st0).2.trace ∧
     ((∀ e ∈ regABC, ∀ p, StepEv.rollback ∉ (e.2 p).2.2) →
       resolvingCalls (run_all_increments regABC true Option.none true true st0).2.trace
        = (if Ev.commit ∈ (run_all_increments regABC true Option.none true true st0).2.trace
              ∧ st0.commitOk = false then 2 else 1))) :=
  ⟨rfl, resolving_calls_and_disconnect regABC true Option.none st0 regABC rfl rfl⟩

/-! ## Claim C10: failed or empty distinct-years read returns success -/

/-- C10: when the handle is connected and the distinct-years query either
fails (`execute_query` returns `None`) or finds an empty table, the year
step returns success after that single query, with no mutation and no
further handle call — a read error here is indistinguishable from an empty
table. -/
theorem read_error_or_empty_is_success (db : DBState) (dc : Bool)
    (hc : db.connected = true) (h : db.readOk = false ∨ db.tbl = []) :
    increment_schuljahresabschnitte_jahr db dc
      = (true, { db with trace := db.trace ++ [Ev.query] }) := by
  rcases h with h | h
  · simp [increment_schuljahresabschnitte_jahr, execute_query_distinct, hc, h]
  · by_cases hr : db.readOk = true
    · simp [increment_schuljahresabschnitte_jahr, execute_query_distinct, hc, h,
        hr, distinctDesc, sortDesc]
    · have hf : db.readOk = false := Bool.eq_false_iff.mpr hr
      simp [increment_schuljahresabschnitte_jahr, execute_query_distinct, hc, hf]

/-- Witness for C10 on a connected handle over an empty table. -/
theorem read_error_or_empty_is_success_witness :
    (dbEmpty.connected = true ∧ dbEmpty.tbl = []) ∧
    increment_schuljahresabschnitte_jahr dbEmpty false
      = (true, { dbEmpty with trace := [Ev.query] }) :=
  ⟨⟨rfl, rfl⟩, read_error_or_empty_is_success dbEmpty false rfl (Or.inr rfl)⟩

/-! ## Claim C6: the {2023, 2024, 2025} scenario -/

/-- C6 counterexample: on the table `{2023, 2024, 2025}` the update
`2024 → 2025` is not skipped — the update statement for it is issued and
takes effect (2024 disappears in favour of 2025), because by the time 2024
is processed the earlier update `2025 → 2026` has already removed the
colliding year from the live table. -/
theorem no_skip_on_2023_2024_2025 :
    (increment_schuljahresabschnitte_jahr db2345 false).1 = true ∧
    Ev.update 2025 2024 ∈ (increment_schuljahresabschnitte_jahr db2345 false).2.trace ∧
    (increment_schuljahresabschnitte_jahr db2345 false).2.tbl
      = [some 2024, some 2025, some 2026] := by
  decide

/-- C6 amended: on the table `{2023, 2024, 2025}` no update is skipped:
processing descending, `2025 → 2026`, then `2024 → 2025`, then
`2023 → 2024` are all performed (each collision check consults the live
table, where the earlier update has already removed the would-be colliding
year), and the step succeeds without failing the run. -/
theorem all_updates_performed_on_2023_2024_2025 :
    increment_schuljahresabschnitte_jahr db2345 false
      = (true,
         { db2345 with
             tbl := [some 2024, some 2025, some 2026],
             trace := [Ev.query, Ev.query, Ev.update 2026 2025, Ev.query,
                       Ev.update 2025 2024, Ev.query, Ev.update 2024 2023] }) := by
  decide

/-! ## Claim C5: steps and commit/rollback authority -/

theorem execute_query_distinct_eq (db : DBState) (hc : db.connected = true)
    (hr : db.readOk = true) :
    execute_query_distinct db
      = (some ((distinctDesc db.tbl).map (fun v => [v])),
         { db with trace := db.trace ++ [Ev.query] }) := by
  simp [execute_query_distinct, hc, hr]

theorem execute_query_distinct_fail (db : DBState) (hc : db.connected = true)
    (hrf : db.readOk = false) :
    execute_query_distinct db
      = (Option.none, { db with trace := db.trace ++ [Ev.query] }) := by
  simp [execute_query_distinct, hc, hrf]

theorem execute_query_count_snd (db : DBState) (y : Int) :
    (execute_query_count db y).2
      = if db.connected = true then { db with trace := db.trace ++ [Ev.query] }
        else db := by
  by_cases hc : db.connected = true
  · by_cases hr : db.readOk = true <;> simp [execute_query_count, hc, hr]
  · simp [execute_query_count, hc]

theorem execute_update_setJahr_snd (db : DBState) (new old : Int) :
    (execute_update_setJahr db new old).2
      = if db.connected = true then
          if db.writeOk = true then
            { db with
                trace := db.trace ++ [Ev.update new old],
                tbl := db.tbl.map (fun c => if c = some old then some new else c) }
          else { db with trace := db.trace ++ [Ev.update new old] }
        else db := by
  by_cases hc : db.connected = true
  · by_cases hw : db.writeOk = true <;> simp [execute_update_setJahr, hc, hw]
  · simp [execute_update_setJahr, hc]

theorem benignExt_rfl (db : DBState) : benignExt db db := fun _ he => Or.inl he

theorem benignExt_trans {a b c : DBState} (h1 : benignExt a b)
    (h2 : benignExt b c) : benignExt a c := by
  intro e he
  rcases h2 e he with h | h
  · exact h1 e h
  · exact Or.inr h

theorem benignExt_query (db : DBState) (y : Int) :
    benignExt db (execute_query_count db y).2 := by
  intro e he
  rw [execute_query_count_snd] at he
  by_cases hc : db.connected = true
  · rw [if_pos hc] at he
    rcases List.mem_append.mp he with h | h
    · exact Or.inl h
    · rw [List.mem_singleton] at h
      exact Or.inr (Or.inl h)
  · rw [if_neg hc] at he
    exact Or.inl he

theorem benignExt_update (db : DBState) (new old : Int) :
    benignExt db (execute_update_setJahr db new old).2 := by
  intro e he
  rw [execute_update_setJahr_snd] at he
  by_cases hc : db.connected = true
  · rw [if_pos hc] at he
    by_cases hw : db.writeOk = true
    · rw [if_pos hw] at he
      rcases List.mem_append.mp he with h | h
      · exact Or.inl h
      · rw [List.mem_singleton] at h
        exact Or.inr (Or.inr ⟨new, old, h⟩)
    · rw [if_neg hw] at he
      rcases List.mem_append.mp he with h | h
      · exact Or.inl h
      · rw [List.mem_singleton] at h
        exact Or.inr (Or.inr ⟨new, old, h⟩)
  · rw [if_neg hc] at he
    exact Or.inl he

theorem jahrLoop_benign :
    ∀ (ys : List (Option Int)) (db : DBState), benignExt db (jahrLoop ys db).2
  | [], db => benignExt_rfl db
  | Option.none :: _, db => benignExt_rfl db
  | some jahr :: rest, db => by
    simp only [jahrLoop]
    split
    · exact benignExt_trans (benignExt_query db _) (jahrLoop_benign rest _)
    · split
      · exact benignExt_trans (benignExt_query db _)
          (benignExt_trans (benignExt_update _ _ _) (jahrLoop_benign rest _))
      · exact benignExt_trans (benignExt_query db _) (benignExt_update _ _ _)

theorem jahrLoop_no_raise :
    ∀ (ys : List (Option Int)) (db : DBState), Option.none ∉ ys →
      (jahrLoop ys db).1 ≠ LoopRes.raisedNone
  | [], _, _ => by simp [jahrLoop]
  | Option.none :: _, _, h => absurd (List.mem_cons_self _ _) h
  | some jahr :: rest, db, h => by
    have hrest : Option.none ∉ rest := fun hm => h (List.mem_cons_of_mem _ hm)
    simp only [jahrLoop]
    split
    · exact jahrLoop_no_raise rest _ hrest
    · split
      · exact jahrLoop_no_raise rest _ hrest
      · simp

theorem firstCells_map_single :
    ∀ xs : List (Option Int), firstCells (xs.map (fun v => [v])) = some xs
  | [] => rfl
  | x :: xs => by simp [firstCells, firstCells_map_single xs]

theorem none_not_mem_distinctDesc (tbl : List (Option Int))
    (h : Option.none ∉ tbl) : Option.none ∉ distinctDesc tbl := by
  unfold distinctDesc
  rw [if_neg h]
  simp

theorem benign_no_commit {db db2 : DBState} (hb : benignExt db db2)
    (hcm : Ev.commit ∉ db.trace) : Ev.commit ∉ db2.trace := by
  intro h
  rcases hb _ h with h | h | ⟨n, o, h⟩
  · exact hcm h
  · exact Ev.noConfusion h
  · exact Ev.noConfusion h

theorem benign_no_rollback {db db2 : DBState} (hb : benignExt db db2)
    (hrb : Ev.rollback ∉ db.trace) : Ev.rollback ∉ db2.trace := by
  intro h
  rcases hb _ h with h | h | ⟨n, o, h⟩
  · exact hrb h
  · exact Ev.noConfusion h
  · exact Ev.noConfusion h

theorem dbRollback_no_commit (db : DBState) (h : Ev.commit ∉ db.trace) :
    Ev.commit ∉ (dbRollback db).2.trace := by
  unfold dbRollback
  by_cases hc : db.connected = true <;> simp [hc, h]

/-- C5 counterexample: invoked with `do_commit = False` on a connected
handle whose table holds a `NULL` year, the year step's internal exception
handler calls rollback on the shared handle itself — the orchestrator is
not the only component issuing rollback. -/
theorem step_calls_rollback_on_exception :
    (increment_schuljahresabschnitte_jahr dbNull false).1 = false ∧
    (increment_schuljahresabschnitte_jahr dbNull false).2.trace
      = [Ev.query, Ev.rollback] := by
  decide

/-- C5 amended: a step invoked with `do_commit = False` never calls commit
on the shared handle, and as long as its body raises no internal exception
(for the year step: no `NULL` year in the table) it never calls rollback
either; only the internal exception handler issues a rollback from inside
a step. -/
theorem step_no_commit_rollback_only_on_exception (db : DBState)
    (hcm : Ev.commit ∉ db.trace) (hrb : Ev.rollback ∉ db.trace) :
    Ev.commit ∉ (increment_schuljahresabschnitte_jahr db false).2.trace ∧
    (Option.none ∉ db.tbl →
      Ev.rollback ∉ (increment_schuljahresabschnitte_jahr db false).2.trace) := by
  have hq : Ev.commit ∉ (db.trace ++ [Ev.query]) := by
    intro h
    rcases List.mem_append.mp h with h | h
    · exact hcm h
    · rw [List.mem_singleton] at h
      exact Ev.noConfusion h
  have hqr : Ev.rollback ∉ (db.trace ++ [Ev.query]) := by
    intro h
    rcases List.mem_append.mp h with h | h
    · exact hrb h
    · rw [List.mem_singleton] at h
      exact Ev.noConfusion h
  by_cases hc : db.connected = true
  · by_cases hr : db.readOk = true
    · simp only [increment_schuljahresabschnitte_jahr]
      rw [if_pos hc, execute_query_distinct_eq db hc hr]
      dsimp only
      by_cases he : ((distinctDesc db.tbl).map (fun v => [v])).isEmpty = true
      · rw [if_pos he]
        exact ⟨hq, fun _ => hqr⟩
      · rw [if_neg he, firstCells_map_single]
        dsimp only
        rcases hlp : jahrLoop (distinctDesc db.tbl)
            { db with trace := db.trace ++ [Ev.query] } with ⟨lr, db2⟩
        have hb : benignExt { db with trace := db.trace ++ [Ev.query] } db2 := by
          have := jahrLoop_benign (distinctDesc db.tbl)
            { db with trace := db.trace ++ [Ev.query] }
          rw [hlp] at this
          exact this
        have hcm2 : Ev.commit ∉ db2.trace := benign_no_commit hb hq
        cases lr
        · exact ⟨hcm2, fun hn => benign_no_rollback hb hqr⟩
        · exact ⟨hcm2, fun hn => benign_no_rollback hb hqr⟩
        · refine ⟨dbRollback_no_commit db2 hcm2, fun hn => ?_⟩
          have hnr := jahrLoop_no_raise (distinctDesc db.tbl)
            { db with trace := db.trace ++ [Ev.query] }
            (none_not_mem_distinctDesc db.tbl hn)
          rw [hlp] at hnr
          exact absurd rfl hnr
    · have hrf : db.readOk = false := Bool.eq_false_iff.mpr hr
      simp only [increment_schuljahresabschnitte_jahr]
      rw [if_pos hc, execute_query_distinct_fail db hc hrf]
      exact ⟨hq, fun _ => hqr⟩
  · simp only [increment_schuljahresabschnitte_jahr]
    rw [if_neg hc]
    exact ⟨hcm, fun _ => hrb⟩

/-- Witness for C5 (amended) on a connected handle over a NULL-free
table. -/
theorem step_no_commit_rollback_only_on_exception_witness :
    (Ev.commit ∉ dbPair.trace ∧ Ev.rollback ∉ dbPair.trace) ∧
    (Ev.commit ∉ (increment_schuljahresabschnitte_jahr dbPair false).2.trace ∧
     (Option.none ∉ dbPair.tbl →
       Ev.rollback ∉ (increment_schuljahresabschnitte_jahr dbPair false).2.trace)) :=
  ⟨⟨by decide, by decide⟩,
   step_no_commit_rollback_only_on_exception dbPair (by decide) (by decide)⟩

/-! ## Claim C7: descending processing with collision skip -/

theorem mem_insertDesc {a x : Int} :
    ∀ l : List Int, a ∈ insertDesc x l ↔ a = x ∨ a ∈ l
  | [] => by simp [insertDesc]
  | y :: ys => by
    by_cases h : y ≤ x
    · simp [insertDesc, h]
    · simp only [insertDesc, if_neg h, List.mem_cons, mem_insertDesc ys]
      tauto

theorem insertDesc_perm (x : Int) :
    ∀ l : List Int, List.Perm (insertDesc x l) (x :: l)
  | [] => List.Perm.refl _
  | y :: ys => by
    by_cases h : y ≤ x
    · simp only [insertDesc, if_pos h]
      exact List.Perm.refl _
    · simp only [insertDesc, if_neg h]
      exact ((insertDesc_perm x ys).cons y).trans (List.Perm.swap x y ys)

theorem sortDesc_perm : ∀ l : List Int, List.Perm (sortDesc l) l
  | [] => List.Perm.refl _
  | x :: l => by
    simp only [sortDesc, List.foldr_cons]
    exact (insertDesc_perm x _).trans ((sortDesc_perm l).cons x)

theorem insertDesc_sorted (x : Int) :
    ∀ l : List Int, List.Pairwise (fun a b => b ≤ a) l →
      List.Pairwise (fun a b => b ≤ a) (insertDesc x l)
  | [], _ => by simp [insertDesc]
  | y :: ys, h => by
    rcases List.pairwise_cons.mp h with ⟨hy, hys⟩
    by_cases hxy : y ≤ x
    · simp only [insertDesc, if_pos hxy]
      refine List.pairwise_cons.mpr ⟨?_, h⟩
      intro z hz
      rcases List.mem_cons.mp hz with rfl | hz2
      · exact hxy
      · exact le_trans (hy z hz2) hxy
    · simp only [insertDesc, if_neg hxy]
      refine List.pairwise_cons.mpr ⟨?_, insertDesc_sorted x ys hys⟩
      intro z hz
      rcases (mem_insertDesc ys).mp hz with rfl | hz2
      · exact le_of_not_le hxy
      · exact hy z hz2

theorem sortDesc_sorted : ∀ l : List Int,
    List.Pairwise (fun a b => b ≤ a) (sortDesc l)
  | [] => List.Pairwise.nil
  | x :: l => by
    simp only [sortDesc, List.foldr_cons]
    exact insertDesc_sorted x _ (sortDesc_sorted l)

theorem sortDesc_dedup_strict (l : List Int) :
    List.Pairwise (fun a b => b < a) (sortDesc l.dedup) := by
  have hs := sortDesc_sorted l.dedup
  have hnd : (sortDesc l.dedup).Nodup :=
    ((sortDesc_perm l.dedup).nodup_iff).mpr (List.nodup_dedup l)
  exact (hs.and hnd).imp fun h => lt_of_le_of_ne h.1 (Ne.symm h.2)

theorem count_some_map_some : ∀ (l : List Int) (v : Int),
    List.count (some v) (l.map some) = List.count v l
  | [], _ => rfl
  | x :: l, v => by
    simp only [List.map_cons, List.count_cons, count_some_map_some l v]
    by_cases h : x = v <;> simp [h]

theorem map_some_update (o n : Int) :
    ∀ l : List Int,
      (l.map some).map (fun c => if c = some o then some n else c)
        = (l.map (fun v => if v = o then n else v)).map some
  | [] => rfl
  | x :: l => by
    simp only [List.map_cons, map_some_update o n l]
    by_cases h : x = o
    · simp [h]
    · simp [h]

theorem filterMap_id_map_some (l : List Int) :
    (l.map some).filterMap id = l := by
  rw [List.filterMap_map]
  exact List.filterMap_some l

theorem distinctDesc_map_some (l : List Int) :
    distinctDesc (l.map some) = (sortDesc l.dedup).map some := by
  unfold distinctDesc
  rw [if_neg (by simp), filterMap_id_map_some]
  simp

theorem execute_query_count_eq (db : DBState) (y : Int) (hc : db.connected = true)
    (hr : db.readOk = true) :
    execute_query_count db y
      = (some [[some (db.tbl.count (some y) : Int)]],
         { db with trace := db.trace ++ [Ev.query] }) := by
  simp [execute_query_count, hc, hr]

theorem execute_update_setJahr_eq (db : DBState) (new old : Int)
    (hc : db.connected = true) (hw : db.writeOk = true) :
    execute_update_setJahr db new old
      = (some (db.tbl.count (some old)),
         { db with
             trace := db.trace ++ [Ev.update new old],
             tbl := db.tbl.map (fun c => if c = some old then some new else c) }) := by
  simp [execute_update_setJahr, hc, hw]

theorem jahrLoop_sim :
    ∀ (ys : List Int) (l : List Int) (db : DBState),
      db.connected = true → db.readOk = true → db.writeOk = true →
      db.tbl = l.map some →
      (jahrLoop (ys.map some) db).1 = LoopRes.done ∧
      (jahrLoop (ys.map some) db).2.tbl = (collisionSkipFold ys l).map some
  | [], l, db, _, _, _, ht => by
    exact ⟨rfl, by simp [jahrLoop, collisionSkipFold, ht]⟩
  | y :: ys, l, db, hc, hr, hw, ht => by
    simp only [List.map_cons, jahrLoop]
    rw [execute_query_count_eq db (y + 1) hc hr]
    dsimp only
    have hcount : db.tbl.count (some (y + 1)) = l.count (y + 1) := by
      rw [ht, count_some_map_some]
    simp only [collisionSkipFold]
    by_cases hmem : (y + 1) ∈ l
    · have hpos : checkPositive
          (some [[some (db.tbl.count (some (y + 1)) : Int)]]) = true := by
        simp only [checkPositive, hcount, decide_eq_true_eq]
        exact_mod_cast List.count_pos_iff.mpr hmem
      rw [if_pos hpos, if_pos hmem]
      exact jahrLoop_sim ys l { db with trace := db.trace ++ [Ev.query] } hc hr hw ht
    · have hneg : ¬ checkPositive
          (some [[some (db.tbl.count (some (y + 1)) : Int)]]) = true := by
        simp only [checkPositive, hcount, decide_eq_true_eq]
        intro hpos
        exact hmem (List.count_pos_iff.mp (by exact_mod_cast hpos))
      rw [if_neg hneg, if_neg hmem]
      rw [execute_update_setJahr_eq { db with trace := db.trace ++ [Ev.query] }
        (y + 1) y hc hw]
      dsimp only
      refine jahrLoop_sim ys (l.map fun v => if v = y then y + 1 else v)
        _ hc hr hw ?_
      show db.tbl.map (fun c => if c = some y then some (y + 1) else c)
          = ((l.map fun v => if v = y then y + 1 else v).map some)
      rw [ht, map_some_update]

/-- C7: on a table of (non-NULL) years with working reads and writes, the
year step processes the distinct years in strictly descending order and,
for each year, first checks whether its successor is already present in the
table at that moment — skipping the year without failing when it is, and
otherwise updating every row holding that year to its successor; the step
reports success and the resulting table is exactly the collision-skip fold
of the descending distinct years. -/
theorem year_rollover_descending_collision_skip (l : List Int) (db : DBState)
    (hc : db.connected = true) (hr : db.readOk = true) (hw : db.writeOk = true)
    (ht : db.tbl = l.map some) :
    List.Pairwise (fun a b => b < a) (sortDesc l.dedup) ∧
    (∀ y : Int, y ∈ sortDesc l.dedup ↔ y ∈ l) ∧
    (increment_schuljahresabschnitte_jahr db false).1 = true ∧
    (increment_schuljahresabschnitte_jahr db false).2.tbl
      = (collisionSkipFold (sortDesc l.dedup) l).map some := by
  have hmemiff : ∀ y : Int, y ∈ sortDesc l.dedup ↔ y ∈ l := fun y =>
    ((sortDesc_perm l.dedup).mem_iff).trans (List.mem_dedup)
  have hdd : distinctDesc db.tbl = (sortDesc l.dedup).map some := by
    rw [ht, distinctDesc_map_some]
  refine ⟨sortDesc_dedup_strict l, hmemiff, ?_⟩
  simp only [increment_schuljahresabschnitte_jahr]
  rw [if_pos hc, execute_query_distinct_eq db hc hr, hdd]
  dsimp only
  by_cases hemp : sortDesc l.dedup = []
  · rw [if_pos (by simp [hemp])]
    refine ⟨rfl, ?_⟩
    show db.tbl = (collisionSkipFold (sortDesc l.dedup) l).map some
    rw [hemp, ht]
    rfl
  · rw [if_neg (by simp [hemp]), firstCells_map_single]
    dsimp only
    obtain ⟨hdone, htbl⟩ := jahrLoop_sim (sortDesc l.dedup) l
      { db with trace := db.trace ++ [Ev.query] } hc hr hw ht
    rcases hlp : jahrLoop ((sortDesc l.dedup).map some)
        { db with trace := db.trace ++ [Ev.query] } with ⟨lr, db2⟩
    rw [hlp] at hdone htbl
    dsimp only at hdone htbl
    subst hdone
    exact ⟨rfl, htbl⟩

/-- Witness for C7 on the concrete table `{2023, 2024}`. -/
theorem year_rollover_descending_collision_skip_witness :
    (dbPair.connected = true ∧ dbPair.readOk = true ∧ dbPair.writeOk = true ∧
      dbPair.tbl = ([2023, 2024] : List Int).map some) ∧
    (List.Pairwise (fun a b => b < a) (sortDesc ([2023, 2024] : List Int).dedup) ∧
     (∀ y : Int, y ∈ sortDesc ([2023, 2024] : List Int).dedup ↔
        y ∈ ([2023, 2024] : List Int)) ∧
     (increment_schuljahresabschnitte_jahr dbPair false).1 = true ∧
     (increment_schuljahresabschnitte_jahr dbPair false).2.tbl
       = (collisionSkipFold (sortDesc ([2023, 2024] : List Int).dedup)
           [2023, 2024]).map some) :=
  ⟨⟨rfl, rfl, rfl, rfl⟩,
   year_rollover_descending_collision_skip [2023, 2024] dbPair rfl rfl rfl rfl⟩
